import Mathlib

/-!
# Formal model of the secure-user-authentication backend

Shallow embedding of `src/backend_auth_api/src/api/main.py`: the in-memory
user store, the password hashing function (`hashlib.sha256(...).hexdigest()`),
and the three endpoint handlers `health_check`, `register_user`, `login_user`,
together with the pydantic schema validation of the request models.
-/

namespace AuthApi

/-! ## UTF-8 encoding (embedding of Python `pw.encode("utf-8")`) -/

/-- UTF-8 encoding of a single Unicode scalar value, as a list of byte values. -/
def utf8EncodeChar (n : Nat) : List Nat :=
  if n < 0x80 then [n]
  else if n < 0x800 then
    [0xC0 ||| (n >>> 6), 0x80 ||| (n &&& 0x3F)]
  else if n < 0x10000 then
    [0xE0 ||| (n >>> 12), 0x80 ||| ((n >>> 6) &&& 0x3F), 0x80 ||| (n &&& 0x3F)]
  else
    [0xF0 ||| (n >>> 18), 0x80 ||| ((n >>> 12) &&& 0x3F),
     0x80 ||| ((n >>> 6) &&& 0x3F), 0x80 ||| (n &&& 0x3F)]

/-- UTF-8 encoding of a string: embedding of Python `s.encode("utf-8")`. -/
def utf8Encode (s : String) : List Nat :=
  (s.data.map (fun c => utf8EncodeChar c.toNat)).flatten

/-! ## SHA-256 (embedding of `hashlib.sha256`), over `Nat` with explicit
wrap-around modulo `2^32` -/

/-- Truncate to a 32-bit word. -/
def w32 (n : Nat) : Nat := n % 4294967296

/-- Right rotation of a 32-bit word by `n` bits. -/
def rotr (n x : Nat) : Nat := w32 ((x >>> n) ||| (x <<< (32 - n)))

/-- SHA-256 `Ch` function. -/
def ch (x y z : Nat) : Nat := (x &&& y) ^^^ ((x ^^^ 0xFFFFFFFF) &&& z)

/-- SHA-256 `Maj` function. -/
def maj (x y z : Nat) : Nat := (x &&& y) ^^^ (x &&& z) ^^^ (y &&& z)

/-- SHA-256 `Σ0`. -/
def bigSigma0 (x : Nat) : Nat := rotr 2 x ^^^ rotr 13 x ^^^ rotr 22 x

/-- SHA-256 `Σ1`. -/
def bigSigma1 (x : Nat) : Nat := rotr 6 x ^^^ rotr 11 x ^^^ rotr 25 x

/-- SHA-256 `σ0`. -/
def smallSigma0 (x : Nat) : Nat := rotr 7 x ^^^ rotr 18 x ^^^ (x >>> 3)

/-- SHA-256 `σ1`. -/
def smallSigma1 (x : Nat) : Nat := rotr 17 x ^^^ rotr 19 x ^^^ (x >>> 10)

/-- The 64 SHA-256 round constants. -/
def sha256K : List Nat :=
  [ 0x428A2F98, 0x71374491, 0xB5C0FBCF, 0xE9B5DBA5
  , 0x3956C25B, 0x59F111F1, 0x923F82A4, 0xAB1C5ED5
  , 0xD807AA98, 0x12835B01, 0x243185BE, 0x550C7DC3
  , 0x72BE5D74, 0x80DEB1FE, 0x9BDC06A7, 0xC19BF174
  , 0xE49B69C1, 0xEFBE4786, 0x0FC19DC6, 0x240CA1CC
  , 0x2DE92C6F, 0x4A7484AA, 0x5CB0A9DC, 0x76F988DA
  , 0x983E5152, 0xA831C66D, 0xB00327C8, 0xBF597FC7
  , 0xC6E00BF3, 0xD5A79147, 0x06CA6351, 0x14292967
  , 0x27B70A85, 0x2E1B2138, 0x4D2C6DFC, 0x53380D13
  , 0x650A7354, 0x766A0ABB, 0x81C2C92E, 0x92722C85
  , 0xA2BFE8A1, 0xA81A664B, 0xC24B8B70, 0xC76C51A3
  , 0xD192E819, 0xD6990624, 0xF40E3585, 0x106AA070
  , 0x19A4C116, 0x1E376C08, 0x2748774C, 0x34B0BCB5
  , 0x391C0CB3, 0x4ED8AA4A, 0x5B9CCA4F, 0x682E6FF3
  , 0x748F82EE, 0x78A5636F, 0x84C87814, 0x8CC70208
  , 0x90BEFFFA, 0xA4506CEB, 0xBEF9A3F7, 0xC67178F2 ]

/-- Big-endian byte rendering of `n` on `k` bytes. -/
def toBytesBE : Nat → Nat → List Nat
  | 0, _ => []
  | k + 1, n => ((n >>> (8 * k)) % 256) :: toBytesBE k n

/-- SHA-256 message padding: append `0x80`, zeros up to 56 mod 64, then the
bit length on 8 big-endian bytes. -/
def sha256pad (msg : List Nat) : List Nat :=
  let z := (119 - (msg.length % 64)) % 64
  msg ++ [0x80] ++ List.replicate z 0 ++ toBytesBE 8 (msg.length * 8)

/-- Group a byte list into big-endian 32-bit words. -/
def toWordsBE : List Nat → List Nat
  | b0 :: b1 :: b2 :: b3 :: rest =>
    (((b0 * 256 + b1) * 256 + b2) * 256 + b3) :: toWordsBE rest
  | _ => []

/-- Split a word list into chunks of 16, with fuel for structural recursion. -/
def chunks16Aux : Nat → List Nat → List (List Nat)
  | 0, _ => []
  | _, [] => []
  | fuel + 1, ws => ws.take 16 :: chunks16Aux fuel (ws.drop 16)

/-- Split a word list into chunks of 16 (the 512-bit blocks). -/
def chunks16 (ws : List Nat) : List (List Nat) :=
  chunks16Aux ws.length ws

/-- Append `fuel` further words of the SHA-256 message schedule. -/
def extendAux : Nat → List Nat → List Nat
  | 0, w => w
  | fuel + 1, w =>
    let t := w.length
    extendAux fuel (w ++ [w32 (smallSigma1 (w.getD (t - 2) 0) + w.getD (t - 7) 0 +
                                smallSigma0 (w.getD (t - 15) 0) + w.getD (t - 16) 0)])

/-- Extend a 16-word block to the 64-word message schedule. -/
def extendSchedule (w : List Nat) : List Nat :=
  extendAux (64 - w.length) w

/-- The eight 32-bit working variables of SHA-256. -/
structure Sha256State where
  a : Nat
  b : Nat
  c : Nat
  d : Nat
  e : Nat
  f : Nat
  g : Nat
  h : Nat

/-- One round of the SHA-256 compression function. -/
def sha256Round (s : Sha256State) (k w : Nat) : Sha256State :=
  let t1 := w32 (s.h + bigSigma1 s.e + ch s.e s.f s.g + k + w)
  let t2 := w32 (bigSigma0 s.a + maj s.a s.b s.c)
  ⟨w32 (t1 + t2), s.a, s.b, s.c, w32 (s.d + t1), s.e, s.f, s.g⟩

/-- Compress one 16-word block into the running hash state. -/
def compressBlock (hs : Sha256State) (block : List Nat) : Sha256State :=
  let s := ((sha256K.zip (extendSchedule block)).foldl
    (fun st kw => sha256Round st kw.1 kw.2) hs)
  ⟨w32 (hs.a + s.a), w32 (hs.b + s.b), w32 (hs.c + s.c), w32 (hs.d + s.d),
   w32 (hs.e + s.e), w32 (hs.f + s.f), w32 (hs.g + s.g), w32 (hs.h + s.h)⟩

/-- The SHA-256 initial hash value. -/
def sha256init : Sha256State :=
  ⟨0x6A09E667, 0xBB67AE85, 0x3C6EF372, 0xA54FF53A,
   0x510E527F, 0x9B05688C, 0x1F83D9AB, 0x5BE0CD19⟩

/-- SHA-256 of a byte list, as the final eight-word state. -/
def sha256words (msg : List Nat) : Sha256State :=
  (chunks16 (toWordsBE (sha256pad msg))).foldl compressBlock sha256init

/-- Lowercase hexadecimal digit for a nibble. -/
def hexNibble (n : Nat) : Char :=
  if n < 10 then Char.ofNat (48 + n) else Char.ofNat (87 + n)

/-- Render a 32-bit word as 8 lowercase hex characters, most significant first. -/
def toHex8 (w : Nat) : List Char :=
  [28, 24, 20, 16, 12, 8, 4, 0].map (fun k => hexNibble ((w >>> k) % 16))

/-- Hex rendering of a final SHA-256 state: embedding of `.hexdigest()`. -/
def hexdigest (s : Sha256State) : String :=
  ⟨toHex8 s.a ++ toHex8 s.b ++ toHex8 s.c ++ toHex8 s.d ++
   toHex8 s.e ++ toHex8 s.f ++ toHex8 s.g ++ toHex8 s.h⟩

/-- Embedding of `_hash_password`:
`hashlib.sha256(pw.encode("utf-8")).hexdigest()`. -/
def _hash_password (pw : String) : String :=
  hexdigest (sha256words (utf8Encode pw))

/-- Characters that may appear in a lowercase hexadecimal digest. -/
def isHexLowerChar (c : Char) : Bool := c.isDigit || ('a' ≤ c && c ≤ 'f')

/-! ## Data model: request/response schemas and the in-memory user store -/

/-- Embedding of Python `str.lower()` (ASCII case mapping on each character). -/
def lower (s : String) : String := ⟨s.data.map Char.toLower⟩

/-- Does the string contain an (ASCII) uppercase letter? -/
def hasUpper (s : String) : Bool := s.data.any Char.isUpper

/-- Embedding of the pydantic `RegisterRequest` model's fields. -/
structure RegisterRequest where
  name : String
  email : String
  password : String

/-- Embedding of the pydantic `LoginRequest` model's fields. -/
structure LoginRequest where
  email : String
  password : String

/-- Embedding of the pydantic `RegisterResponse` model: a message and the
`user` dict (a string-to-string mapping, kept as an association list). -/
structure RegisterResponse where
  message : String
  user : List (String × String)
deriving DecidableEq

/-- Embedding of the pydantic `LoginResponse` model. -/
structure LoginResponse where
  message : String
  user : List (String × String)
deriving DecidableEq

/-- A record of the `_USERS` store: the dict
`{"name": ..., "email": ..., "password_hash": ...}`. -/
structure UserRecord where
  name : String
  email : String
  password_hash : String
deriving DecidableEq

/-- The `_USERS` store: a dict from email key to user record, embedded as an
association list (most recent insertion first). -/
abbrev UserStore := List (String × UserRecord)

/-- Dict lookup, the embedding of `_USERS.get(email)` / `email in _USERS`. -/
def dictGet (store : UserStore) (k : String) : Option UserRecord :=
  match store with
  | [] => none
  | (k', v) :: rest => if k' = k then some v else dictGet rest k

/-- The three user-facing error kinds of the service (HTTP 400 / 404 / 401
`HTTPException`s raised by the handlers). -/
inductive AuthError where
  | DuplicateUser
  | UserNotFound
  | InvalidCredentials
deriving DecidableEq

/-! ## Schema validation (the pydantic layer in front of the handlers) -/

/-- Modelled from the spec: the external `EmailStr` validator ("syntactically
valid email address, per standard email-format validation"); its code is a
third-party library, not part of the repository. The model requires exactly
one `@` with a non-empty local part and a non-empty, dot-carrying domain. -/
def emailOk (e : String) : Bool :=
  let loc := e.data.takeWhile (fun c => c ≠ '@')
  match e.data.dropWhile (fun c => c ≠ '@') with
  | '@' :: domain =>
    !loc.isEmpty && !domain.isEmpty && !domain.contains '@' && domain.contains '.'
  | _ => false

/-- Pydantic validation of `RegisterRequest`: `name : str` (no further
constraint), `email : EmailStr`, `password : str` with `min_length=6`. -/
def validRegisterRequest (p : RegisterRequest) : Bool :=
  emailOk p.email && decide (6 ≤ p.password.length)

/-- Pydantic validation of `LoginRequest`: `email : EmailStr`,
`password : str` (no length constraint). -/
def validLoginRequest (p : LoginRequest) : Bool :=
  emailOk p.email

/-! ## The endpoint handlers

Each handler is embedded as a state-passing function: it takes the current
`_USERS` store and returns its result (success payload or raised
`HTTPException` kind) together with the store after the call. -/

/-- Embedding of `health_check`: returns `{"message": "Healthy"}`. -/
def health_check : List (String × String) := [("message", "Healthy")]

/-- Embedding of `register_user`. -/
def register_user (store : UserStore) (payload : RegisterRequest) :
    Except AuthError RegisterResponse × UserStore :=
  let email := lower payload.email
  match dictGet store email with
  | some _ => (.error .DuplicateUser, store)
  | none =>
    let user : UserRecord :=
      { name := payload.name
        email := email
        password_hash := _hash_password payload.password }
    (.ok { message := "User registered"
           user := [("name", payload.name), ("email", email)] },
     (email, user) :: store)

/-- Embedding of `login_user`. -/
def login_user (store : UserStore) (payload : LoginRequest) :
    Except AuthError LoginResponse × UserStore :=
  let email := lower payload.email
  match dictGet store email with
  | none => (.error .UserNotFound, store)
  | some user =>
    if user.password_hash ≠ _hash_password payload.password then
      (.error .InvalidCredentials, store)
    else
      (.ok { message := "Login successful"
             user := [("name", user.name), ("email", email)] },
       store)

/-- Well-formedness of the `_USERS` store, as the spec's data-model invariant:
keys are distinct, and every record sits under its own, already-lowercased,
email as key. -/
def StoreWF (store : UserStore) : Prop :=
  (store.map Prod.fst).Nodup ∧ ∀ kv ∈ store, kv.2.email = kv.1 ∧ lower kv.1 = kv.1

/-- A request to any of the three endpoints. -/
inductive Request where
  | health
  | register (p : RegisterRequest)
  | login (p : LoginRequest)

/-- The observable outcome of one call. -/
inductive ApiResult where
  | healthOk (body : List (String × String))
  | registerOk (r : RegisterResponse)
  | loginOk (r : LoginResponse)
  | failure (e : AuthError)

/-- One call against the service: dispatch to the matching handler. -/
def handle (store : UserStore) : Request → ApiResult × UserStore
  | .health => (.healthOk health_check, store)
  | .register p =>
    match register_user store p with
    | (.ok r, store') => (.registerOk r, store')
    | (.error e, store') => (.failure e, store')
  | .login p =>
    match login_user store p with
    | (.ok r, store') => (.loginOk r, store')
    | (.error e, store') => (.failure e, store')

/-! ## Helper lemmas -/

theorem dictGet_eq_none (s : UserStore) (k : String) :
    dictGet s k = none ↔ k ∉ s.map Prod.fst := by
  induction s with
  | nil => simp [dictGet]
  | cons kv rest ih =>
    obtain ⟨k', v⟩ := kv
    by_cases hk : k' = k
    · subst hk; simp [dictGet]
    · simp [dictGet, hk, ih, Ne.symm hk]

theorem dictGet_some_mem {s : UserStore} {k : String} {v : UserRecord}
    (h : dictGet s k = some v) : (k, v) ∈ s := by
  induction s with
  | nil => simp [dictGet] at h
  | cons kv rest ih =>
    obtain ⟨k', v'⟩ := kv
    by_cases hk : k' = k
    · subst hk
      simp [dictGet] at h
      subst h
      exact List.mem_cons_self _ _
    · simp [dictGet, hk] at h
      exact List.mem_cons_of_mem _ (ih h)

theorem char_toNat_ofNat {n : Nat} (h : n.isValidChar) : (Char.ofNat n).toNat = n := by
  simp [Char.ofNat, h, Char.ofNatAux, Char.toNat, UInt32.toNat]

theorem isUpper_toNat {c : Char} (h : c.isUpper = true) :
    65 ≤ c.toNat ∧ c.toNat ≤ 90 := by
  simp only [Char.isUpper, Bool.and_eq_true, decide_eq_true_eq] at h
  obtain ⟨h1, h2⟩ := h
  exact ⟨UInt32.le_toNat_of_le (by decide) h1, UInt32.toNat_le_of_le (by decide) h2⟩

theorem char_toLower_of_upper {c : Char} (h1 : 65 ≤ c.toNat) (h2 : c.toNat ≤ 90) :
    (c.toLower).toNat = c.toNat + 32 := by
  simp only [Char.toLower]
  rw [if_pos ⟨h1, h2⟩]
  exact char_toNat_ofNat (Or.inl (by omega))

theorem char_toLower_eq_self {c : Char} (h : ¬(65 ≤ c.toNat ∧ c.toNat ≤ 90)) :
    c.toLower = c := by
  simp only [Char.toLower]
  exact if_neg h

theorem char_toLower_toLower (c : Char) : c.toLower.toLower = c.toLower := by
  by_cases h : 65 ≤ c.toNat ∧ c.toNat ≤ 90
  · have h1 := char_toLower_of_upper h.1 h.2
    exact char_toLower_eq_self (by omega)
  · rw [char_toLower_eq_self h]
    exact char_toLower_eq_self h

theorem char_toLower_ne_of_upper {c : Char} (h1 : 65 ≤ c.toNat) (h2 : c.toNat ≤ 90) :
    c.toLower ≠ c := by
  intro he
  have h3 := char_toLower_of_upper h1 h2
  rw [he] at h3
  omega

theorem lower_lower (s : String) : lower (lower s) = lower s := by
  unfold lower
  refine congrArg String.mk ?_
  show (s.data.map Char.toLower).map Char.toLower = s.data.map Char.toLower
  rw [List.map_map]
  exact List.map_congr_left fun c _ => char_toLower_toLower c

theorem map_eq_self_mem {α : Type} {f : α → α} :
    ∀ {l : List α}, l.map f = l → ∀ c ∈ l, f c = c := by
  intro l
  induction l with
  | nil => intro _ c hc; cases hc
  | cons a t ih =>
    intro h c hc
    rw [List.map_cons, List.cons.injEq] at h
    rcases List.mem_cons.mp hc with rfl | hct
    · exact h.1
    · exact ih h.2 c hct

theorem lower_ne_of_hasUpper {s : String} (h : hasUpper s = true) : lower s ≠ s := by
  obtain ⟨c, hc, hup⟩ := List.any_eq_true.mp h
  intro he
  have hd : s.data.map Char.toLower = s.data := congrArg String.data he
  have hcc : Char.toLower c = c := map_eq_self_mem hd c hc
  have hb := isUpper_toNat hup
  exact char_toLower_ne_of_upper hb.1 hb.2 hcc

theorem login_user_snd (store : UserStore) (p : LoginRequest) :
    (login_user store p).2 = store := by
  unfold login_user
  cases hg : dictGet store (lower p.email) with
  | none => simp [hg]
  | some u =>
    simp only [hg]
    split <;> rfl

end AuthApi

namespace AuthApi

/-! ## The claims -/

/-- C1: for every store and every register request whose lowercased email is
already a key of the store, registration fails with `DuplicateUser` (whatever
the request's name and password) and the store is unchanged. -/
theorem register_duplicate_rejected (store : UserStore) (p : RegisterRequest)
    (h : (dictGet store (lower p.email)).isSome = true) :
    register_user store p = (.error .DuplicateUser, store) := by
  unfold register_user
  cases hg : dictGet store (lower p.email) with
  | none => rw [hg] at h; simp at h
  | some u => simp [hg]

theorem register_duplicate_rejected_w :
    (dictGet [("ann@x.com", ⟨"Ann", "ann@x.com", "h0"⟩)] (lower "Ann@X.com")).isSome = true ∧
    register_user [("ann@x.com", ⟨"Ann", "ann@x.com", "h0"⟩)]
        ⟨"Ann2", "Ann@X.com", "other1"⟩ =
      (.error .DuplicateUser, [("ann@x.com", ⟨"Ann", "ann@x.com", "h0"⟩)]) :=
  ⟨by decide, register_duplicate_rejected _ _ (by decide)⟩

/-- C2: for every store and every register request whose lowercased email is
absent from the store, registration succeeds, inserts exactly the record
`{name, lowercased email, password hash}` under the lowercased email key, and
the success payload holds exactly the `name` and `email` fields (no password
and no hash). -/
theorem register_inserts_record (store : UserStore) (p : RegisterRequest)
    (h : dictGet store (lower p.email) = none) :
    ∃ resp : RegisterResponse,
      register_user store p =
        (.ok resp,
         (lower p.email,
          { name := p.name, email := lower p.email,
            password_hash := _hash_password p.password }) :: store) ∧
      resp.user = [("name", p.name), ("email", lower p.email)] ∧
      resp.user.map Prod.fst = ["name", "email"] := by
  refine ⟨{ message := "User registered",
            user := [("name", p.name), ("email", lower p.email)] }, ?_, rfl, rfl⟩
  unfold register_user
  simp [h]

theorem register_inserts_record_w :
    dictGet [] (lower "Ann@X.com") = none ∧
    ∃ resp : RegisterResponse,
      register_user [] ⟨"Ann", "Ann@X.com", "secret1"⟩ =
        (.ok resp,
         [("ann@x.com",
           { name := "Ann", email := "ann@x.com",
             password_hash := _hash_password "secret1" })]) ∧
      resp.user = [("name", "Ann"), ("email", "ann@x.com")] ∧
      resp.user.map Prod.fst = ["name", "email"] :=
  ⟨rfl, register_inserts_record [] ⟨"Ann", "Ann@X.com", "secret1"⟩ rfl⟩

/-- C4: for every store and every login request whose lowercased email is not
a key of the store, login fails with `UserNotFound` and nothing else, the
store unchanged; in particular this is the outcome before any registration
for that email. -/
theorem login_unknown_email (store : UserStore) (p : LoginRequest)
    (h : dictGet store (lower p.email) = none) :
    login_user store p = (.error .UserNotFound, store) := by
  unfold login_user
  simp [h]

theorem login_unknown_email_w :
    dictGet [] (lower "ann@x.com") = none ∧
    login_user [] ⟨"ann@x.com", "secret1"⟩ = (.error .UserNotFound, []) :=
  ⟨rfl, login_unknown_email [] ⟨"ann@x.com", "secret1"⟩ rfl⟩

/-- C3: email-normalization round trip — if two emails agree after
lowercasing and registration with the first succeeds, then login with the
second email and the same password succeeds on the resulting store and
returns the user payload with the name and the lowercased email. -/
theorem register_login_roundtrip (store : UserStore) (n e1 e2 pw : String)
    (resp : RegisterResponse) (store' : UserStore)
    (hlow : lower e1 = lower e2)
    (hreg : register_user store ⟨n, e1, pw⟩ = (.ok resp, store')) :
    login_user store' ⟨e2, pw⟩ =
      (.ok { message := "Login successful",
             user := [("name", n), ("email", lower e2)] }, store') := by
  unfold register_user at hreg
  cases hg : dictGet store (lower e1) with
  | some u =>
    simp [hg] at hreg
  | none =>
    simp only [hg, Prod.mk.injEq, Except.ok.injEq] at hreg
    obtain ⟨hresp, hstore⟩ := hreg
    subst hstore
    have hd : dictGet ((lower e1,
        { name := n, email := lower e1,
          password_hash := _hash_password pw }) :: store) (lower e2) =
        some { name := n, email := lower e1, password_hash := _hash_password pw } := by
      unfold dictGet
      rw [if_pos hlow]
    unfold login_user
    simp only [hd]
    simp

/-- C5: for every store and login request whose lowercased email is a key of
the store, login fails with `InvalidCredentials` when the hash of the
supplied password differs from the stored one, and otherwise succeeds with a
payload carrying the stored record's name and the normalized email — under
the store invariant that email is the stored record's own email. -/
theorem login_password_check (store : UserStore) (p : LoginRequest)
    (u : UserRecord) (h : dictGet store (lower p.email) = some u) :
    (u.password_hash ≠ _hash_password p.password →
      login_user store p = (.error .InvalidCredentials, store)) ∧
    (u.password_hash = _hash_password p.password →
      login_user store p =
        (.ok { message := "Login successful",
               user := [("name", u.name), ("email", lower p.email)] }, store)) ∧
    (StoreWF store → u.email = lower p.email) := by
  refine ⟨?_, ?_, ?_⟩
  · intro hne
    unfold login_user
    simp [h, hne]
  · intro heq
    unfold login_user
    simp [h, heq]
  · intro hwf
    exact (hwf.2 _ (dictGet_some_mem h)).1

set_option maxRecDepth 40000 in
theorem login_password_check_w :
    login_user [("ann@x.com", ⟨"Ann", "ann@x.com", _hash_password "secret1"⟩)]
        ⟨"ANN@X.COM", "wrong"⟩ =
      (.error .InvalidCredentials,
       [("ann@x.com", ⟨"Ann", "ann@x.com", _hash_password "secret1"⟩)]) :=
  (login_password_check [("ann@x.com", ⟨"Ann", "ann@x.com", _hash_password "secret1"⟩)]
    ⟨"ANN@X.COM", "wrong"⟩ ⟨"Ann", "ann@x.com", _hash_password "secret1"⟩ rfl).1 (by decide)

/-- C6: every operation (register, login, health) preserves the store
invariant — distinct keys, each record keyed by its own lowercased email —
and never updates or deletes an existing record: a key mapped to a record
before the call is mapped to the same record after it. -/
theorem store_invariant_preserved (store : UserStore) (req : Request)
    (hwf : StoreWF store) :
    StoreWF (handle store req).2 ∧
    ∀ k u, dictGet store k = some u → dictGet (handle store req).2 k = some u := by
  cases req with
  | health => exact ⟨hwf, fun k u h => h⟩
  | login p =>
    have h2 : (handle store (Request.login p)).2 = store := by
      simp only [handle]
      rcases hl : login_user store p with ⟨r, st⟩
      have hst : st = store := by
        have h3 := login_user_snd store p
        rw [hl] at h3
        exact h3
      cases r <;> simp [hst]
    rw [h2]
    exact ⟨hwf, fun k u h => h⟩
  | register p =>
    cases hg : dictGet store (lower p.email) with
    | some u =>
      have h2 : (handle store (Request.register p)).2 = store := by
        unfold handle register_user
        simp [hg]
      rw [h2]
      exact ⟨hwf, fun k u h => h⟩
    | none =>
      have h2 : (handle store (Request.register p)).2 =
          (lower p.email,
           { name := p.name, email := lower p.email,
             password_hash := _hash_password p.password }) :: store := by
        unfold handle register_user
        simp [hg]
      rw [h2]
      refine ⟨⟨?_, ?_⟩, ?_⟩
      · exact List.Nodup.cons ((dictGet_eq_none store (lower p.email)).mp hg) hwf.1
      · intro kv hkv
        rcases List.mem_cons.mp hkv with rfl | hmem
        · exact ⟨rfl, lower_lower p.email⟩
        · exact hwf.2 kv hmem
      · intro k u hku
        have hk : lower p.email ≠ k := by
          intro he
          rw [he, hku] at hg
          cases hg
        unfold dictGet
        rw [if_neg hk]
        exact hku

theorem store_invariant_preserved_w :
    StoreWF [("ann@x.com", ⟨"Ann", "ann@x.com", "h0"⟩)] ∧
    (StoreWF (handle [("ann@x.com", ⟨"Ann", "ann@x.com", "h0"⟩)]
        (.register ⟨"Bob", "Bob@Y.com", "hunter2"⟩)).2 ∧
     ∀ k u, dictGet [("ann@x.com", ⟨"Ann", "ann@x.com", "h0"⟩)] k = some u →
       dictGet (handle [("ann@x.com", ⟨"Ann", "ann@x.com", "h0"⟩)]
         (.register ⟨"Bob", "Bob@Y.com", "hunter2"⟩)).2 k = some u) :=
  have hwf : StoreWF [("ann@x.com", ⟨"Ann", "ann@x.com", "h0"⟩)] := by
    constructor
    · decide
    · intro kv hkv
      rcases List.mem_cons.mp hkv with rfl | hmem
      · exact ⟨rfl, by decide⟩
      · cases hmem
  ⟨hwf, store_invariant_preserved _ _ hwf⟩

/-- C7: login is read-only — whatever the store and the request, and whichever
of the four outcomes occurs, the store after the call equals the store
before. -/
theorem login_is_readonly (store : UserStore) (p : LoginRequest) :
    (login_user store p).2 = store :=
  login_user_snd store p

theorem register_login_roundtrip_w :
    lower "User@Example.com" = lower "user@example.com" ∧
    login_user [("user@example.com", ⟨"Ann", "user@example.com", _hash_password "secret1"⟩)]
        ⟨"user@example.com", "secret1"⟩ =
      (.ok { message := "Login successful",
             user := [("name", "Ann"), ("email", lower "user@example.com")] },
       [("user@example.com", ⟨"Ann", "user@example.com", _hash_password "secret1"⟩)]) :=
  ⟨rfl,
   register_login_roundtrip [] "Ann" "User@Example.com" "user@example.com" "secret1"
     { message := "User registered", user := [("name", "Ann"), ("email", "user@example.com")] }
     [("user@example.com", ⟨"Ann", "user@example.com", _hash_password "secret1"⟩)]
     rfl rfl⟩

theorem hexNibble_hexChar {n : Nat} (h : n < 16) :
    isHexLowerChar (hexNibble n) = true := by
  have h16 : ∀ m : Fin 16, isHexLowerChar (hexNibble m.val) = true := by decide
  exact h16 ⟨n, h⟩

theorem toHex8_hexChar (w : Nat) : ∀ c ∈ toHex8 w, isHexLowerChar c = true := by
  intro c hc
  simp only [toHex8, List.mem_map] at hc
  obtain ⟨k, _, rfl⟩ := hc
  exact hexNibble_hexChar (Nat.mod_lt _ (by decide))

theorem hexdigest_length (st : Sha256State) : (hexdigest st).length = 64 := rfl

theorem hexdigest_hexChar (st : Sha256State) :
    ∀ c ∈ (hexdigest st).data, isHexLowerChar c = true := by
  intro c hc
  have hc' : c ∈ toHex8 st.a ++ toHex8 st.b ++ toHex8 st.c ++ toHex8 st.d ++
      toHex8 st.e ++ toHex8 st.f ++ toHex8 st.g ++ toHex8 st.h := hc
  simp only [List.mem_append] at hc'
  rcases hc' with ((((((h1 | h1) | h1) | h1) | h1) | h1) | h1) | h1 <;>
    exact toHex8_hexChar _ _ h1

/-- C8: the password hash is a deterministic pure function of the password,
and for every input its digest is a 64-character lowercase hexadecimal
string (a 256-bit digest rendered in hex). -/
theorem hash_pure_fixed_hex (p : String) :
    _hash_password p = _hash_password p ∧
    (_hash_password p).length = 64 ∧
    ∀ c ∈ (_hash_password p).data, isHexLowerChar c = true :=
  ⟨rfl, hexdigest_length _, hexdigest_hexChar _⟩

set_option maxRecDepth 40000 in
theorem hash_pure_fixed_hex_w :
    'b' ∈ (_hash_password "abc").data ∧ isHexLowerChar 'b' = true :=
  ⟨by decide, (hash_pure_fixed_hex "abc").2.2 'b' (by decide)⟩

/-- C9 counterexample: a register request whose name is the empty string
passes the schema validation — the `name : str` field carries no non-empty
constraint — and the subsequent register call creates a record with empty
name, refuting the claim that such requests are rejected before the
operation runs. -/
theorem empty_name_passes_validation :
    validRegisterRequest { name := "", email := "user@example.com", password := "secret1" } = true ∧
    (register_user [] { name := "", email := "user@example.com", password := "secret1" }).2 =
      [("user@example.com",
        { name := "", email := "user@example.com",
          password_hash := _hash_password "secret1" })] :=
  ⟨by decide, rfl⟩

/-- C9 (amended): every register request whose password has fewer than 6
characters is rejected by the schema validation before the operation runs;
the `name` field, however, is unconstrained — validation does not depend on
it, so empty-name requests are not rejected. -/
theorem register_schema_validation (p : RegisterRequest) :
    (p.password.length < 6 → validRegisterRequest p = false) ∧
    (∀ n, validRegisterRequest { p with name := n } = validRegisterRequest p) := by
  constructor
  · intro h
    unfold validRegisterRequest
    have h6 : decide (6 ≤ p.password.length) = false := by
      simp
      omega
    rw [h6, Bool.and_false]
  · intro n
    rfl

theorem register_schema_validation_w :
    ("abc" : String).length < 6 ∧
    validRegisterRequest { name := "Ann", email := "ann@x.com", password := "abc" } = false :=
  ⟨by decide,
   (register_schema_validation { name := "Ann", email := "ann@x.com", password := "abc" }).1
     (by decide)⟩

/-- C10: on every successful registration the success payload echoes the
name exactly as supplied and carries the lowercased email (also stored in
the created record); whenever the submitted email contains an uppercase
letter, the payload's email therefore differs from the submitted one. -/
theorem register_email_normalization (store : UserStore) (p : RegisterRequest)
    (resp : RegisterResponse) (store' : UserStore)
    (h : register_user store p = (.ok resp, store')) :
    resp.user = [("name", p.name), ("email", lower p.email)] ∧
    (hasUpper p.email = true → lower p.email ≠ p.email) ∧
    store' = (lower p.email,
      { name := p.name, email := lower p.email,
        password_hash := _hash_password p.password }) :: store := by
  unfold register_user at h
  cases hg : dictGet store (lower p.email) with
  | some u => simp [hg] at h
  | none =>
    simp only [hg, Prod.mk.injEq, Except.ok.injEq] at h
    obtain ⟨hresp, hstore⟩ := h
    subst hresp
    subst hstore
    exact ⟨rfl, fun hu => lower_ne_of_hasUpper hu, rfl⟩

theorem register_email_normalization_w :
    ([("name", "Ann"), ("email", "user@example.com")] : List (String × String)) =
      [("name", "Ann"), ("email", lower "User@Example.com")] ∧
    (hasUpper "User@Example.com" = true → lower "User@Example.com" ≠ "User@Example.com") ∧
    [("user@example.com",
      ({ name := "Ann", email := "user@example.com",
         password_hash := _hash_password "secret1" } : UserRecord))] =
      [(lower "User@Example.com",
        { name := "Ann", email := lower "User@Example.com",
          password_hash := _hash_password "secret1" })] :=
  register_email_normalization []
    { name := "Ann", email := "User@Example.com", password := "secret1" }
    { message := "User registered", user := [("name", "Ann"), ("email", "user@example.com")] }
    [("user@example.com",
      { name := "Ann", email := "user@example.com",
        password_hash := _hash_password "secret1" })]
    rfl

end AuthApi
